import Mathlib

/-!
Movie Night room session coordinator: a shallow embedding.

This development embeds the server side of the Movie_Night repository:
the in-memory storage backend (class MemStorage of storage.ts) and the
WebSocket message handler (registerRoutes of routes.ts), together with the
broadcast helper broadcastToRoom and the connection registry (the clients
Map of routes.ts).

Modelling conventions:
* JavaScript values that may be undefined are embedded as Option types.
  A field read from a partially populated payload object yields none.
* Storage maps (rooms, participants, messages, playbackStates) are total
  functions from the key type; the JS pattern m.get(k) with a fallback of
  an empty value corresponds to reading the function.  Keys are
  Option String because a payload roomId may be undefined and JS Maps
  accept undefined as a key.
* The clients Map (connection registry) is an association list in
  insertion order, matching JS Map iteration order.  mapSet replaces an
  existing key in place and otherwise appends, mapDelete removes the key,
  exactly the JS Map semantics under the unique-key discipline that
  Map.set maintains.
* Wall-clock reads (new Date()) are embedded as a counter field now that
  every Date() call reads and then advances, giving a monotone clock.
* A socket is named by an opaque String identity; the readyState check
  (WebSocket.OPEN) is a Boolean function rs over socket identities.
* String interpolation of a possibly-undefined value prints "undefined",
  as JS template literals do; jstr embeds this.
-/

/-- Room entity (rooms table / MemStorage.rooms values). -/
structure Room where
  id : String
  videoUrl : Option String
  hostId : Option String
  createdAt : Nat
deriving DecidableEq, Repr

/-- Participant entity (participants table / MemStorage.participants values). -/
structure Participant where
  id : Nat
  roomId : Option String
  username : Option String
  joinedAt : Nat
deriving DecidableEq, Repr

/-- Message entity (messages table / MemStorage.messages values). -/
structure Message where
  id : Nat
  roomId : Option String
  username : Option String
  content : Option String
  type : String
  timestamp : Nat
deriving DecidableEq, Repr

/-- PlaybackState entity (playbackStates table / MemStorage.playbackStates values). -/
structure PlaybackState where
  roomId : Option String
  isPlaying : Option Bool
  currentTime : Option Nat
  lastUpdated : Nat
deriving DecidableEq, Repr

/-- JS template-literal rendering of a possibly-undefined string. -/
def jstr : Option String → String
  | some s => s
  | none => "undefined"

/-- Pointwise update of a storage map. -/
def updFn {β : Type} (f : Option String → β) (k : Option String) (v : β) :
    Option String → β :=
  fun x => if x = k then v else f x

/-- The state of class MemStorage (storage.ts): the five Maps and the
id counters, plus the monotone clock modelling new Date(). -/
structure MemStorage where
  rooms : Option String → Option Room
  participants : Option String → List Participant
  messages : Option String → List Message
  playbackStates : Option String → Option PlaybackState
  participantId : Nat
  messageId : Nat
  now : Nat

/-- MemStorage as built by its constructor (empty maps, counters at 1). -/
def emptyStorage : MemStorage :=
  ⟨fun _ => none, fun _ => [], fun _ => [], fun _ => none, 1, 1, 0⟩

/-- MemStorage.createRoom: inserts the room, initializes empty participant
and message lists and a default playback state, all stamped with one
new Date() read.  The generated nanoid(6) is the explicit argument id. -/
def MemStorage.createRoom (st : MemStorage) (id : String)
    (videoUrl hostId : Option String) : MemStorage × Room :=
  let timestamp := st.now
  let newRoom : Room := ⟨id, videoUrl, hostId, timestamp⟩
  ({ st with
      rooms := updFn st.rooms (some id) (some newRoom)
      participants := updFn st.participants (some id) []
      messages := updFn st.messages (some id) []
      playbackStates := updFn st.playbackStates (some id)
        (some ⟨some id, some false, some 0, timestamp⟩)
      now := st.now + 1 },
   newRoom)

/-- MemStorage.getRoom. -/
def MemStorage.getRoom (st : MemStorage) (id : Option String) : Option Room :=
  st.rooms id

/-- MemStorage.addParticipant: assigns participantId++, stamps joinedAt
with new Date(), and pushes onto the room list. -/
def MemStorage.addParticipant (st : MemStorage) (roomId username : Option String) :
    MemStorage × Participant :=
  let p : Participant := ⟨st.participantId, roomId, username, st.now⟩
  ({ st with
      participants := updFn st.participants roomId (st.participants roomId ++ [p])
      participantId := st.participantId + 1
      now := st.now + 1 },
   p)

/-- MemStorage.getParticipants: the stored list, or [] when absent. -/
def MemStorage.getParticipants (st : MemStorage) (roomId : Option String) :
    List Participant :=
  st.participants roomId

/-- MemStorage.removeParticipant: filters out every row whose username
equals the given one. -/
def MemStorage.removeParticipant (st : MemStorage) (roomId username : Option String) :
    MemStorage :=
  { st with
      participants := updFn st.participants roomId
        ((st.participants roomId).filter (fun p => p.username ≠ username)) }

/-- MemStorage.addMessage: assigns messageId++, stamps timestamp with
new Date(), and pushes onto the room log. -/
def MemStorage.addMessage (st : MemStorage) (roomId username content : Option String)
    (type : String) : MemStorage × Message :=
  let m : Message := ⟨st.messageId, roomId, username, content, type, st.now⟩
  ({ st with
      messages := updFn st.messages roomId (st.messages roomId ++ [m])
      messageId := st.messageId + 1
      now := st.now + 1 },
   m)

/-- MemStorage.getMessages: the stored log, or [] when absent. -/
def MemStorage.getMessages (st : MemStorage) (roomId : Option String) : List Message :=
  st.messages roomId

/-- MemStorage.updatePlaybackState: unconditionally replaces the row for
the given roomId (creating it when absent) and restamps lastUpdated. -/
def MemStorage.updatePlaybackState (st : MemStorage) (roomId : Option String)
    (isPlaying : Option Bool) (currentTime : Option Nat) :
    MemStorage × PlaybackState :=
  let ps : PlaybackState := ⟨roomId, isPlaying, currentTime, st.now⟩
  ({ st with
      playbackStates := updFn st.playbackStates roomId (some ps)
      now := st.now + 1 },
   ps)

/-- MemStorage.getPlaybackState. -/
def MemStorage.getPlaybackState (st : MemStorage) (roomId : Option String) :
    Option PlaybackState :=
  st.playbackStates roomId

/-! ## The connection registry (the clients Map of routes.ts) -/

/-- One value of the clients Map: the socket handle and the roomId and
username recorded at join_room time. -/
structure ClientEntry where
  ws : String
  roomId : Option String
  username : Option String
deriving DecidableEq, Repr

/-- The clients Map as an insertion-ordered association list. -/
abbrev ClientMap := List (String × ClientEntry)

/-- Map.set: replace in place when the key is present (JS Maps keep the
original position), append otherwise. -/
def mapSet : ClientMap → String → ClientEntry → ClientMap
  | [], k, v => [(k, v)]
  | q :: m, k, v => if q.1 = k then (k, v) :: m else q :: mapSet m k v

/-- Map.get. -/
def mapGet (m : ClientMap) (k : String) : Option ClientEntry :=
  (m.find? (fun q => q.1 == k)).map (fun q => q.2)

/-- Map.delete. -/
def mapDelete (m : ClientMap) (k : String) : ClientMap :=
  m.filter (fun q => q.1 ≠ k)

/-! ## Server to client events (routes.ts ws.send / broadcastToRoom payloads) -/

/-- The server→client frames of routes.ts, by their type tag. -/
inductive ServerEvent where
  | error (message : String)
  | videoState (payload : Option PlaybackState)
  | chatMessage (payload : Message)
  | newPeer (peerId : Option String) (username : Option String)
  | joinRoomSuccess (room : Room) (participants : List Participant)
      (messages : List Message)
  | peerLeft (username : Option String)
deriving DecidableEq, Repr

/-- One channel write: the destination socket identity and the event. -/
abbrev Send := String × ServerEvent

/-- broadcastToRoom (routes.ts): sends to every registry entry whose
roomId matches, skipping the excluded socket and sockets whose
readyState is not OPEN, in registry iteration order. -/
def broadcastToRoom (clients : ClientMap) (rs : String → Bool)
    (roomId : Option String) (message : ServerEvent)
    (excludeClient : Option String) : List Send :=
  (clients.filter
      (fun q => q.2.roomId == roomId && excludeClient != some q.2.ws && rs q.2.ws)).map
    (fun q => (q.2.ws, message))

/-! ## Inbound frames -/

/-- The fields a payload object may carry; a field a client left out
reads as undefined (none), as JS property access does. -/
structure Payload where
  roomId : Option String
  username : Option String
  content : Option String
  peerId : Option String
  isPlaying : Option Bool
  currentTime : Option Nat
deriving DecidableEq, Repr

/-- An inbound WebSocket frame after JSON.parse: either the parse threw
(malformed), or a value with a possibly-absent type tag and a
possibly-absent payload object.  Destructuring an absent payload throws
a TypeError which the handler catches, dropping the frame; destructuring
a present payload yields undefined for missing fields. -/
inductive Frame where
  | malformed
  | valid (type : Option String) (payload : Option Payload)
deriving DecidableEq, Repr

/-- The full coordinator state: the storage singleton and the clients Map. -/
structure ServerState where
  storage : MemStorage
  clients : ClientMap

/-! ## The WebSocket message handler (registerRoutes, routes.ts) -/

/-- The join_room case.  Note the order in the source: the connection is
stored into the clients Map before the room-existence check, and the
entry is not removed on the room-not-found path. -/
def handleJoin (st : ServerState) (clientId ws : String) (rs : String → Bool)
    (pOpt : Option Payload) : ServerState × List Send :=
  match pOpt with
  | none => (st, [])
  | some p =>
    let clients1 := mapSet st.clients clientId ⟨ws, p.roomId, p.username⟩
    match st.storage.getRoom p.roomId with
    | none =>
      ({ st with clients := clients1 }, [(ws, ServerEvent.error "Room not found")])
    | some room =>
      let stor1 := (st.storage.addParticipant p.roomId p.username).1
      let res2 := stor1.addMessage p.roomId (some "System")
        (some (jstr p.username ++ " joined the room")) "system"
      let stor2 := res2.1
      let systemMessage := res2.2
      ({ storage := stor2, clients := clients1 },
       (ws, ServerEvent.videoState (stor2.getPlaybackState p.roomId)) ::
         (broadcastToRoom clients1 rs p.roomId
            (ServerEvent.chatMessage systemMessage) none ++
          (broadcastToRoom clients1 rs p.roomId
             (ServerEvent.newPeer p.peerId p.username) (some ws) ++
           [(ws, ServerEvent.joinRoomSuccess room (stor2.getParticipants p.roomId)
               (stor2.getMessages p.roomId))])))

/-- The shared leave body: routes.ts duplicates this code verbatim in the
leave_room case and in the ws close handler.  Guarded by the clients Map
still holding the entry; broadcasts happen before the entry is deleted. -/
def leaveCleanup (st : ServerState) (clientId : String) (rs : String → Bool) :
    ServerState × List Send :=
  match mapGet st.clients clientId with
  | none => (st, [])
  | some client =>
    let stor1 := st.storage.removeParticipant client.roomId client.username
    let res2 := stor1.addMessage client.roomId (some "System")
      (some (jstr client.username ++ " left the room")) "system"
    ({ storage := res2.1, clients := mapDelete st.clients clientId },
     broadcastToRoom st.clients rs client.roomId
        (ServerEvent.chatMessage res2.2) none ++
      broadcastToRoom st.clients rs client.roomId
        (ServerEvent.peerLeft client.username) none)

/-- The chat_message case: append a user message, broadcast with no
exclusion (the sender receives its own message). -/
def handleChat (st : ServerState) (rs : String → Bool) (pOpt : Option Payload) :
    ServerState × List Send :=
  match pOpt with
  | none => (st, [])
  | some p =>
    let res := st.storage.addMessage p.roomId p.username p.content "user"
    ({ st with storage := res.1 },
     broadcastToRoom st.clients rs p.roomId (ServerEvent.chatMessage res.2) none)

/-- The video_state case: replace the playback state, broadcast excluding
the sender. -/
def handleVideo (st : ServerState) (ws : String) (rs : String → Bool)
    (pOpt : Option Payload) : ServerState × List Send :=
  match pOpt with
  | none => (st, [])
  | some p =>
    let res := st.storage.updatePlaybackState p.roomId p.isPlaying p.currentTime
    ({ st with storage := res.1 },
     broadcastToRoom st.clients rs p.roomId
       (ServerEvent.videoState (some res.2)) (some ws))

/-- The ws message handler: parse, switch on type, default drops. -/
def handleFrame (st : ServerState) (clientId ws : String) (rs : String → Bool) :
    Frame → ServerState × List Send
  | Frame.malformed => (st, [])
  | Frame.valid t pOpt =>
    if t = some "join_room" then handleJoin st clientId ws rs pOpt
    else if t = some "leave_room" then leaveCleanup st clientId rs
    else if t = some "chat_message" then handleChat st rs pOpt
    else if t = some "video_state" then handleVideo st ws rs pOpt
    else (st, [])

/-- The ws close handler: the same body as the leave_room case. -/
def handleClose (st : ServerState) (clientId : String) (rs : String → Bool) :
    ServerState × List Send :=
  leaveCleanup st clientId rs

/-! ## The room-creation endpoint (POST /api/rooms, routes.ts) -/

/-- The HTTP outcome of POST /api/rooms. -/
inductive CreateRoomResult where
  | badRequest
  | created (roomId : String)
deriving DecidableEq, Repr

/-- JS truthiness of a possibly-undefined string (undefined and "" are
falsy). -/
def truthy : Option String → Bool
  | some s => !(s == "")
  | none => false

/-- POST /api/rooms: validate, create the room, add the host as first
participant, append the creation system message. -/
def createRoomRoute (stor : MemStorage) (genId : String)
    (username videoUrl : Option String) : MemStorage × CreateRoomResult :=
  if truthy username && truthy videoUrl then
    let res1 := stor.createRoom genId videoUrl username
    let stor2 := (res1.1.addParticipant (some res1.2.id) username).1
    let stor3 := (stor2.addMessage (some res1.2.id) (some "System")
      (some (jstr username ++ " created the room")) "system").1
    (stor3, CreateRoomResult.created res1.2.id)
  else (stor, CreateRoomResult.badRequest)

/-! ## Frame constructors and concrete fixtures -/

/-- A join_room frame with the three fields the client sends. -/
def joinFrame (r u pid : Option String) : Frame :=
  Frame.valid (some "join_room") (some ⟨r, u, none, pid, none, none⟩)

/-- A chat_message frame with the three fields the client sends. -/
def chatFrame (r u c : Option String) : Frame :=
  Frame.valid (some "chat_message") (some ⟨r, u, c, none, none, none⟩)

/-- A video_state frame with the three fields the client sends. -/
def vsFrame (r : Option String) (b : Option Bool) (t : Option Nat) : Frame :=
  Frame.valid (some "video_state") (some ⟨r, none, none, none, b, t⟩)

/-- A leave_room frame (the handler never reads its payload). -/
def leaveFrame : Frame := Frame.valid (some "leave_room") none

/-- A server with no rooms and no connections. -/
def emptyServer : ServerState := ⟨emptyStorage, []⟩

/-- A storage holding one room r1 with its default playback state. -/
def storR1 : MemStorage := (emptyStorage.createRoom "r1" (some "v1") (some "alice")).1

/-- Two members of r1 (alice on socket wsA, bob on socket wsB). -/
def clientsAB : ClientMap :=
  [("cA", ⟨"wsA", some "r1", some "alice"⟩), ("cB", ⟨"wsB", some "r1", some "bob"⟩)]

/-- A server with room r1 and members alice and bob. -/
def serverAB : ServerState := ⟨storR1, clientsAB⟩

/-! ## Registry (JS Map) lemmas -/

theorem mapGet_mapSet_self (m : ClientMap) (k : String) (v : ClientEntry) :
    mapGet (mapSet m k v) k = some v := by
  induction m with
  | nil => simp [mapSet, mapGet]
  | cons q m ih =>
    by_cases h : q.1 = k
    · simp [mapSet, h, mapGet]
    · have hb : (q.1 == k) = false := beq_eq_false_iff_ne.mpr h
      simp only [mapSet, h, if_false]
      simpa [mapGet, List.find?_cons, hb] using ih

theorem mapSet_eq_append (m : ClientMap) (k : String) (v : ClientEntry)
    (h : mapGet m k = none) : mapSet m k v = m ++ [(k, v)] := by
  induction m with
  | nil => rfl
  | cons q m ih =>
    by_cases hq : q.1 = k
    · exfalso
      have hb : (q.1 == k) = true := beq_iff_eq.mpr hq
      simp [mapGet, List.find?_cons, hb] at h
    · have hb : (q.1 == k) = false := beq_eq_false_iff_ne.mpr hq
      have hm : mapGet m k = none := by
        simpa [mapGet, List.find?_cons, hb] using h
      simp [mapSet, hq, ih hm]

theorem mapGet_mapDelete_self (m : ClientMap) (k : String) :
    mapGet (mapDelete m k) k = none := by
  induction m with
  | nil => simp [mapDelete, mapGet]
  | cons q m ih =>
    by_cases h : q.1 = k
    · rw [show mapDelete (q :: m) k = mapDelete m k by simp [mapDelete, h]]
      exact ih
    · have hb : (q.1 == k) = false := beq_eq_false_iff_ne.mpr h
      simp [mapDelete, mapGet, List.filter_cons, h, List.find?_cons, hb]

/-! ## Broadcast lemmas -/

theorem mem_broadcastToRoom {cl : ClientMap} {rs : String → Bool}
    {r : Option String} {msg : ServerEvent} {ex : Option String}
    {w : String} {e : ServerEvent} :
    (w, e) ∈ broadcastToRoom cl rs r msg ex ↔
      e = msg ∧ ∃ c q, (c, q) ∈ cl ∧ q.roomId = r ∧ ex ≠ some q.ws ∧
        rs q.ws = true ∧ q.ws = w := by
  unfold broadcastToRoom
  rw [List.mem_map]
  constructor
  · rintro ⟨q, hq, he⟩
    rw [List.mem_filter] at hq
    obtain ⟨hmem, hcond⟩ := hq
    simp only [Bool.and_eq_true, beq_iff_eq, bne_iff_ne] at hcond
    obtain ⟨⟨hr, hex⟩, hrs⟩ := hcond
    injection he with hw hev
    exact ⟨hev.symm, q.1, q.2, (by simpa using hmem), hr, hex, hrs, hw⟩
  · rintro ⟨he, c, q, hm, hr, hex, hrs, hw⟩
    subst hw
    subst he
    refine ⟨(c, q), ?_, rfl⟩
    rw [List.mem_filter]
    refine ⟨hm, ?_⟩
    simp only [Bool.and_eq_true, beq_iff_eq, bne_iff_ne]
    exact ⟨⟨hr, hex⟩, hrs⟩

theorem mem_broadcastToRoom_of_entry {cl : ClientMap} {rs : String → Bool}
    {r : Option String} {msg : ServerEvent} {ex : Option String}
    {c : String} {q : ClientEntry} (hm : (c, q) ∈ cl) (hr : q.roomId = r)
    (hex : ex ≠ some q.ws) (hrs : rs q.ws = true) :
    (q.ws, msg) ∈ broadcastToRoom cl rs r msg ex :=
  mem_broadcastToRoom.mpr ⟨rfl, c, q, hm, hr, hex, hrs, rfl⟩

theorem broadcastToRoom_event {cl : ClientMap} {rs : String → Bool}
    {r : Option String} {msg : ServerEvent} {ex : Option String}
    {s : Send} (h : s ∈ broadcastToRoom cl rs r msg ex) : s.2 = msg := by
  simp only [broadcastToRoom, List.mem_map] at h
  obtain ⟨q, _, hq⟩ := h
  rw [← hq]

theorem broadcastToRoom_exclude {cl : ClientMap} {rs : String → Bool}
    {r : Option String} {msg : ServerEvent} {x : String}
    {e : ServerEvent} : (x, e) ∉ broadcastToRoom cl rs r msg (some x) := by
  intro h
  obtain ⟨-, c, q, -, -, hex, -, hw⟩ := mem_broadcastToRoom.mp h
  exact hex (by rw [hw])

/-! ## Dispatch lemmas: the switch statement of the ws message handler -/

theorem handleFrame_join (st : ServerState) (cid ws : String) (rs : String → Bool)
    (p : Option Payload) :
    handleFrame st cid ws rs (Frame.valid (some "join_room") p) =
      handleJoin st cid ws rs p := rfl

theorem handleFrame_leave (st : ServerState) (cid ws : String) (rs : String → Bool)
    (p : Option Payload) :
    handleFrame st cid ws rs (Frame.valid (some "leave_room") p) =
      leaveCleanup st cid rs := rfl

theorem handleFrame_chat (st : ServerState) (cid ws : String) (rs : String → Bool)
    (p : Option Payload) :
    handleFrame st cid ws rs (Frame.valid (some "chat_message") p) =
      handleChat st rs p := rfl

theorem handleFrame_video (st : ServerState) (cid ws : String) (rs : String → Bool)
    (p : Option Payload) :
    handleFrame st cid ws rs (Frame.valid (some "video_state") p) =
      handleVideo st ws rs p := rfl

/-! ## Leave reentrancy (claim C4) -/

/-- The two ways a leave can be triggered: an explicit leave_room frame
(on some socket, with some readyState map and payload) or the transport
closing. -/
inductive LeaveOp where
  | explicitLeave (ws : String) (rs : String → Bool) (pOpt : Option Payload)
  | transportClose (rs : String → Bool)

/-- Run one leave trigger for a connection. -/
def applyLeave (st : ServerState) (clientId : String) :
    LeaveOp → ServerState × List Send
  | LeaveOp.explicitLeave ws rs pOpt =>
      handleFrame st clientId ws rs (Frame.valid (some "leave_room") pOpt)
  | LeaveOp.transportClose rs => handleClose st clientId rs

theorem leaveCleanup_of_absent {st : ServerState} {cid : String}
    {rs : String → Bool} (h : mapGet st.clients cid = none) :
    leaveCleanup st cid rs = (st, []) := by
  simp [leaveCleanup, h]

theorem leaveCleanup_clears {st : ServerState} {cid : String} {rs : String → Bool} :
    mapGet (leaveCleanup st cid rs).1.clients cid = none := by
  cases hc : mapGet st.clients cid with
  | none => simp [leaveCleanup, hc]
  | some c => simp [leaveCleanup, hc, mapGet_mapDelete_self]

/-- C4: processing leave (explicit leave_room or transport close) twice
for the same connection is a no-op on the second invocation: state is
unchanged and nothing is stored, broadcast, or sent, because each leave
path first checks that the clients Map still holds the entry and deletes
the entry on completion. -/
theorem leave_twice_second_noop (st : ServerState) (cid : String)
    (op1 op2 : LeaveOp) :
    applyLeave (applyLeave st cid op1).1 cid op2 = ((applyLeave st cid op1).1, []) := by
  have h1 : mapGet (applyLeave st cid op1).1.clients cid = none := by
    cases op1 with
    | explicitLeave ws rs pOpt =>
        rw [applyLeave, handleFrame_leave]
        exact leaveCleanup_clears
    | transportClose rs =>
        rw [applyLeave, handleClose]
        exact leaveCleanup_clears
  cases op2 with
  | explicitLeave ws rs pOpt =>
      rw [applyLeave, handleFrame_leave, leaveCleanup_of_absent h1]
  | transportClose rs =>
      rw [applyLeave, handleClose, leaveCleanup_of_absent h1]

/-! ## Unguarded store mutations (claim C9) -/

/-- C9: chat_message and video_state apply the store mutation keyed by
the roomId of the event payload for every state whatsoever: no check
that the sender is in the clients Map and no check that the room exists
(the conclusion holds for all st, hence also when the sender is
unregistered and the room id resolves to nothing).  A video_state event
for a roomId with no PlaybackState row creates the row (upsert), and
neither handler touches the registry. -/
theorem store_mutation_unguarded (st : ServerState) (cid ws : String)
    (rs : String → Bool) (r u c : Option String) (b : Option Bool)
    (t : Option Nat) :
    ((handleFrame st cid ws rs (vsFrame r b t)).1.storage.getPlaybackState r
        = some ⟨r, b, t, st.storage.now⟩) ∧
    ((handleFrame st cid ws rs (vsFrame r b t)).1.clients = st.clients) ∧
    ((handleFrame st cid ws rs (chatFrame r u c)).1.storage.getMessages r
        = st.storage.getMessages r ++
            [⟨st.storage.messageId, r, u, c, "user", st.storage.now⟩]) ∧
    ((handleFrame st cid ws rs (chatFrame r u c)).1.clients = st.clients) := by
  refine ⟨?_, ?_, ?_, ?_⟩
  · rw [vsFrame, handleFrame_video]
    simp [handleVideo, MemStorage.updatePlaybackState, MemStorage.getPlaybackState,
      updFn]
  · rw [vsFrame, handleFrame_video]
    simp [handleVideo, MemStorage.updatePlaybackState]
  · rw [chatFrame, handleFrame_chat]
    simp [handleChat, MemStorage.addMessage, MemStorage.getMessages, updFn]
  · rw [chatFrame, handleFrame_chat]
    simp [handleChat, MemStorage.addMessage]

/-! ## join_room on an unknown room (claim C1) -/

/-- C1 (amended): a join_room whose roomId does not resolve sends exactly
one error event to the caller and performs zero store mutations (neither
a Participant nor a Message is inserted and the storage is untouched),
but the connection IS registered in the clients Map: the source stores
the entry before the room-existence check and does not remove it on the
failure path. -/
theorem joinRoom_unknown_room (st : ServerState) (cid ws : String)
    (rs : String → Bool) (p : Payload)
    (hroom : st.storage.getRoom p.roomId = none) :
    handleFrame st cid ws rs (Frame.valid (some "join_room") (some p)) =
      ({ storage := st.storage,
         clients := mapSet st.clients cid ⟨ws, p.roomId, p.username⟩ },
       [(ws, ServerEvent.error "Room not found")]) ∧
    mapGet (handleFrame st cid ws rs
        (Frame.valid (some "join_room") (some p))).1.clients cid
      = some ⟨ws, p.roomId, p.username⟩ := by
  have h1 : handleFrame st cid ws rs (Frame.valid (some "join_room") (some p)) =
      ({ storage := st.storage,
         clients := mapSet st.clients cid ⟨ws, p.roomId, p.username⟩ },
       [(ws, ServerEvent.error "Room not found")]) := by
    rw [handleFrame_join]
    simp [handleJoin, hroom]
  refine ⟨h1, ?_⟩
  rw [h1]
  exact mapGet_mapSet_self st.clients cid ⟨ws, p.roomId, p.username⟩

/-- C1 witness: the amended theorem at a concrete input. -/
theorem joinRoom_unknown_room_witness :
    handleFrame emptyServer "c1" "w1" (fun _ => true)
        (Frame.valid (some "join_room")
          (some ⟨some "r1", some "alice", none, some "p1", none, none⟩)) =
      ({ storage := emptyStorage,
         clients := [("c1", ⟨"w1", some "r1", some "alice"⟩)] },
       [("w1", ServerEvent.error "Room not found")]) ∧
    mapGet (handleFrame emptyServer "c1" "w1" (fun _ => true)
        (Frame.valid (some "join_room")
          (some ⟨some "r1", some "alice", none, some "p1", none, none⟩))).1.clients "c1"
      = some ⟨"w1", some "r1", some "alice"⟩ :=
  joinRoom_unknown_room emptyServer "c1" "w1" (fun _ => true)
    ⟨some "r1", some "alice", none, some "p1", none, none⟩ rfl

/-- C1 counterexample: at a concrete unknown-room join the caller does
get exactly one error event, but the clients Map afterwards holds the
calling connection, refuting the conjunct of the claim that the
connection is not registered and that zero registry mutations occur. -/
theorem joinRoom_unknown_room_registers_cx :
    (handleFrame emptyServer "c1" "w1" (fun _ => true)
        (joinFrame (some "r1") (some "alice") (some "p1"))).2
      = [("w1", ServerEvent.error "Room not found")] ∧
    ¬ mapGet (handleFrame emptyServer "c1" "w1" (fun _ => true)
        (joinFrame (some "r1") (some "alice") (some "p1"))).1.clients "c1" = none := by
  exact ⟨rfl, by decide⟩

/-! ## Dropped frames (claim C8) -/

/-- The frames the ws message handler drops without any effect: a parse
failure; a recognized destructuring type (join_room, chat_message,
video_state) whose payload object is absent, so that destructuring
throws and the catch discards the event; and every unrecognized type
(the switch default).  A leave_room frame never reads its payload, and a
recognized frame whose payload object is present is processed even when
required fields are missing. -/
def droppedFrame : Frame → Bool
  | Frame.malformed => true
  | Frame.valid t pOpt =>
    if t = some "join_room" ∨ t = some "chat_message" ∨ t = some "video_state" then
      pOpt.isNone
    else if t = some "leave_room" then false
    else true

/-- C8 (amended): every frame that is a parse failure, carries an
unrecognized type, or carries a recognized destructuring type with an
absent payload object is dropped: the storage and the clients Map are
unchanged and no event is sent to any connection.  (A recognized frame
whose payload object is present but misses required fields is NOT
dropped; see the counterexample.) -/
theorem dropped_frame_no_effect (st : ServerState) (cid ws : String)
    (rs : String → Bool) (f : Frame) (h : droppedFrame f = true) :
    handleFrame st cid ws rs f = (st, []) := by
  cases f with
  | malformed => rfl
  | valid t pOpt =>
    by_cases hj : t = some "join_room"
    · subst hj
      have hnone : pOpt = none := by
        simpa [droppedFrame] using h
      subst hnone
      rfl
    · by_cases hl : t = some "leave_room"
      · subst hl
        have : droppedFrame (Frame.valid (some "leave_room") pOpt) = false := rfl
        rw [this] at h
        cases h
      · by_cases hc : t = some "chat_message"
        · subst hc
          have hnone : pOpt = none := by
            simpa [droppedFrame] using h
          subst hnone
          rfl
        · by_cases hv : t = some "video_state"
          · subst hv
            have hnone : pOpt = none := by
              simpa [droppedFrame] using h
            subst hnone
            rfl
          · simp [handleFrame, hj, hl, hc, hv]

/-- C8 witness: the amended theorem at a concrete input (a frame of
unrecognized type, on a server with a live connection). -/
theorem dropped_frame_no_effect_witness :
    handleFrame serverAB "cA" "wsA" (fun _ => true)
        (Frame.valid (some "ping") (some ⟨some "r1", none, none, none, none, none⟩))
      = (serverAB, []) :=
  dropped_frame_no_effect serverAB "cA" "wsA" (fun _ => true)
    (Frame.valid (some "ping") (some ⟨some "r1", none, none, none, none, none⟩)) rfl

/-- C8 counterexample: a chat_message frame whose payload object is
present but misses the required username and content fields is NOT
dropped: a user Message with undefined fields is appended to the store
and the message is broadcast to the members of the room, refuting the
claim that frames with missing required fields cause zero store
mutations and zero sends. -/
theorem missing_fields_frame_not_dropped_cx :
    (handleFrame serverAB "cB" "wsB" (fun _ => true)
        (Frame.valid (some "chat_message")
          (some ⟨some "r1", none, none, none, none, none⟩))).1.storage.getMessages
        (some "r1")
      = [⟨1, some "r1", none, none, "user", 1⟩] ∧
    serverAB.storage.getMessages (some "r1") = [] ∧
    (handleFrame serverAB "cB" "wsB" (fun _ => true)
        (Frame.valid (some "chat_message")
          (some ⟨some "r1", none, none, none, none, none⟩))).2
      = [("wsA", ServerEvent.chatMessage ⟨1, some "r1", none, none, "user", 1⟩),
         ("wsB", ServerEvent.chatMessage ⟨1, some "r1", none, none, "user", 1⟩)] := by
  refine ⟨?_, ?_, ?_⟩ <;> rfl

/-! ## video_state: last writer wins, broadcast excludes sender (claim C2) -/

/-- C2: for two video_state updates U1 then U2 applied in that order to
room r, by any senders, the playback state afterwards is exactly the payload of U2 with lastUpdated restamped, and each applied update is broadcast
to every connected member of r except its sender (and never to the
sender). -/
theorem video_state_lww_and_broadcast (st : ServerState) (cid1 ws1 cid2 ws2 : String)
    (rs : String → Bool) (r : Option String) (b1 b2 : Option Bool)
    (t1 t2 : Option Nat) :
    ((handleFrame (handleFrame st cid1 ws1 rs (vsFrame r b1 t1)).1 cid2 ws2 rs
        (vsFrame r b2 t2)).1.storage.getPlaybackState r
      = some ⟨r, b2, t2, st.storage.now + 1⟩) ∧
    (∀ c q, (c, q) ∈ st.clients → q.roomId = r → q.ws ≠ ws1 → rs q.ws = true →
      (q.ws, ServerEvent.videoState (some ⟨r, b1, t1, st.storage.now⟩))
        ∈ (handleFrame st cid1 ws1 rs (vsFrame r b1 t1)).2) ∧
    (∀ e, (ws1, e) ∉ (handleFrame st cid1 ws1 rs (vsFrame r b1 t1)).2) ∧
    (∀ c q, (c, q) ∈ st.clients → q.roomId = r → q.ws ≠ ws2 → rs q.ws = true →
      (q.ws, ServerEvent.videoState (some ⟨r, b2, t2, st.storage.now + 1⟩))
        ∈ (handleFrame (handleFrame st cid1 ws1 rs (vsFrame r b1 t1)).1 cid2 ws2 rs
            (vsFrame r b2 t2)).2) ∧
    (∀ e, (ws2, e) ∉ (handleFrame (handleFrame st cid1 ws1 rs (vsFrame r b1 t1)).1
        cid2 ws2 rs (vsFrame r b2 t2)).2) := by
  have hsends1 : (handleFrame st cid1 ws1 rs (vsFrame r b1 t1)).2 =
      broadcastToRoom st.clients rs r
        (ServerEvent.videoState (some ⟨r, b1, t1, st.storage.now⟩)) (some ws1) := rfl
  have hsends2 : (handleFrame (handleFrame st cid1 ws1 rs (vsFrame r b1 t1)).1
        cid2 ws2 rs (vsFrame r b2 t2)).2 =
      broadcastToRoom st.clients rs r
        (ServerEvent.videoState (some ⟨r, b2, t2, st.storage.now + 1⟩)) (some ws2) := rfl
  have hps : (handleFrame (handleFrame st cid1 ws1 rs (vsFrame r b1 t1)).1 cid2 ws2 rs
      (vsFrame r b2 t2)).1.storage.playbackStates =
      updFn (updFn st.storage.playbackStates r (some ⟨r, b1, t1, st.storage.now⟩)) r
        (some ⟨r, b2, t2, st.storage.now + 1⟩) := rfl
  refine ⟨?_, ?_, ?_, ?_, ?_⟩
  · rw [MemStorage.getPlaybackState, hps]
    simp [updFn]
  · intro c q hm hr hws hrs
    rw [hsends1]
    refine mem_broadcastToRoom_of_entry hm hr ?_ hrs
    intro heq
    exact hws (Option.some.inj heq).symm
  · intro e he
    rw [hsends1] at he
    exact broadcastToRoom_exclude he
  · intro c q hm hr hws hrs
    rw [hsends2]
    refine mem_broadcastToRoom_of_entry hm hr ?_ hrs
    intro heq
    exact hws (Option.some.inj heq).symm
  · intro e he
    rw [hsends2] at he
    exact broadcastToRoom_exclude he

/-- C2 witness: alice then bob update playback in room r1; afterwards the
state is the payload sent by bob, and alice (the non-sender) received the
update of bob while bob did not. -/
theorem video_state_lww_and_broadcast_witness :
    ((handleFrame (handleFrame serverAB "cA" "wsA" (fun _ => true)
        (vsFrame (some "r1") (some true) (some 5000))).1 "cB" "wsB" (fun _ => true)
        (vsFrame (some "r1") (some false) (some 7000))).1.storage.getPlaybackState
        (some "r1")
      = some ⟨some "r1", some false, some 7000, 2⟩) ∧
    (("wsA", ServerEvent.videoState (some ⟨some "r1", some false, some 7000, 2⟩))
      ∈ (handleFrame (handleFrame serverAB "cA" "wsA" (fun _ => true)
          (vsFrame (some "r1") (some true) (some 5000))).1 "cB" "wsB" (fun _ => true)
          (vsFrame (some "r1") (some false) (some 7000))).2) ∧
    (∀ e, ("wsB", e) ∉ (handleFrame (handleFrame serverAB "cA" "wsA" (fun _ => true)
        (vsFrame (some "r1") (some true) (some 5000))).1 "cB" "wsB" (fun _ => true)
        (vsFrame (some "r1") (some false) (some 7000))).2) := by
  have h := video_state_lww_and_broadcast serverAB "cA" "wsA" "cB" "wsB"
    (fun _ => true) (some "r1") (some true) (some false) (some 5000) (some 7000)
  refine ⟨h.1, ?_, h.2.2.2.2⟩
  exact h.2.2.2.1 "cA" ⟨"wsA", some "r1", some "alice"⟩ (by decide) rfl
    (by decide) rfl

/-! ## chat_message: append one user message, broadcast to all (claim C7) -/

/-- C7: a chat_message event from an Active connection (one holding a
registry entry for the room, with an OPEN socket) appends exactly one
user-type Message with the given content to the log of that room (and no
log of another room), and broadcasts that Message to every connected member
of the room including the sender; nothing but that Message is sent. -/
theorem chat_message_append_and_broadcast (st : ServerState) (cid ws : String)
    (rs : String → Bool) (r u c : Option String) (cS : String) (qS : ClientEntry)
    (hmem : (cS, qS) ∈ st.clients) (hws : qS.ws = ws) (hroom : qS.roomId = r)
    (hopen : rs ws = true) :
    ((handleFrame st cid ws rs (chatFrame r u c)).1.storage.getMessages r
      = st.storage.getMessages r ++
          [⟨st.storage.messageId, r, u, c, "user", st.storage.now⟩]) ∧
    (∀ r2, r2 ≠ r →
      (handleFrame st cid ws rs (chatFrame r u c)).1.storage.getMessages r2
        = st.storage.getMessages r2) ∧
    ((ws, ServerEvent.chatMessage ⟨st.storage.messageId, r, u, c, "user", st.storage.now⟩)
      ∈ (handleFrame st cid ws rs (chatFrame r u c)).2) ∧
    (∀ c2 q2, (c2, q2) ∈ st.clients → q2.roomId = r → rs q2.ws = true →
      (q2.ws, ServerEvent.chatMessage ⟨st.storage.messageId, r, u, c, "user", st.storage.now⟩)
        ∈ (handleFrame st cid ws rs (chatFrame r u c)).2) ∧
    (∀ s ∈ (handleFrame st cid ws rs (chatFrame r u c)).2,
      s.2 = ServerEvent.chatMessage
        ⟨st.storage.messageId, r, u, c, "user", st.storage.now⟩) := by
  have hsends : (handleFrame st cid ws rs (chatFrame r u c)).2 =
      broadcastToRoom st.clients rs r
        (ServerEvent.chatMessage ⟨st.storage.messageId, r, u, c, "user", st.storage.now⟩)
        none := rfl
  have hmsgs : (handleFrame st cid ws rs (chatFrame r u c)).1.storage.messages =
      updFn st.storage.messages r (st.storage.messages r ++
        [⟨st.storage.messageId, r, u, c, "user", st.storage.now⟩]) := rfl
  have hall : ∀ c2 q2, (c2, q2) ∈ st.clients → q2.roomId = r → rs q2.ws = true →
      (q2.ws, ServerEvent.chatMessage ⟨st.storage.messageId, r, u, c, "user", st.storage.now⟩)
        ∈ (handleFrame st cid ws rs (chatFrame r u c)).2 := by
    intro c2 q2 hm hr hrs
    rw [hsends]
    exact mem_broadcastToRoom_of_entry hm hr (by intro h; cases h) hrs
  refine ⟨?_, ?_, ?_, hall, ?_⟩
  · rw [MemStorage.getMessages, hmsgs]
    simp [updFn, MemStorage.getMessages]
  · intro r2 hr2
    rw [MemStorage.getMessages, hmsgs, MemStorage.getMessages, updFn]
    simp [hr2]
  · have := hall cS qS hmem hroom (by rw [hws]; exact hopen)
    rwa [hws] at this
  · intro s hs
    rw [hsends] at hs
    exact broadcastToRoom_event hs

/-- C7 witness: alice sends a chat message in room r1; the log gains
exactly that user message and both alice and bob receive it. -/
theorem chat_message_append_and_broadcast_witness :
    ((handleFrame serverAB "cA" "wsA" (fun _ => true)
        (chatFrame (some "r1") (some "alice") (some "hi"))).1.storage.getMessages
        (some "r1")
      = [⟨1, some "r1", some "alice", some "hi", "user", 1⟩]) ∧
    (("wsA", ServerEvent.chatMessage ⟨1, some "r1", some "alice", some "hi", "user", 1⟩)
      ∈ (handleFrame serverAB "cA" "wsA" (fun _ => true)
          (chatFrame (some "r1") (some "alice") (some "hi"))).2) ∧
    (("wsB", ServerEvent.chatMessage ⟨1, some "r1", some "alice", some "hi", "user", 1⟩)
      ∈ (handleFrame serverAB "cA" "wsA" (fun _ => true)
          (chatFrame (some "r1") (some "alice") (some "hi"))).2) := by
  have h := chat_message_append_and_broadcast serverAB "cA" "wsA" (fun _ => true)
    (some "r1") (some "alice") (some "hi") "cA" ⟨"wsA", some "r1", some "alice"⟩
    (by decide) rfl rfl rfl
  refine ⟨?_, h.2.2.1, ?_⟩
  · rw [h.1]
    rfl
  · exact h.2.2.2.1 "cB" ⟨"wsB", some "r1", some "bob"⟩ (by decide) rfl rfl

/-! ## Participant set tracks joins minus leaves (claim C5) -/

/-- A membership operation on one room, at the storage interface. -/
inductive RoomOp where
  | join (username : Option String)
  | leave (username : Option String)

/-- Run one membership operation through the MemStorage methods. -/
def applyRoomOp (stor : MemStorage) (r : Option String) : RoomOp → MemStorage
  | RoomOp.join u => (stor.addParticipant r u).1
  | RoomOp.leave u => stor.removeParticipant r u

/-- Run a sequence of membership operations. -/
def applyRoomOps (stor : MemStorage) (r : Option String) (ops : List RoomOp) :
    MemStorage :=
  ops.foldl (fun s op => applyRoomOp s r op) stor

/-- The specification-side characterization: a username is active after a
sequence of joins and leaves exactly when it joined and has not
subsequently left (its last membership operation is a join). -/
def activeAfter (base : Bool) (u : Option String) : List RoomOp → Bool
  | [] => base
  | RoomOp.join v :: ops => activeAfter (if v = u then true else base) u ops
  | RoomOp.leave v :: ops => activeAfter (if v = u then false else base) u ops

theorem any_filter_username (l : List Participant) (v u : Option String) :
    ((l.filter (fun p => p.username ≠ v)).any (fun p => p.username == u)) =
      (if v = u then false else l.any (fun p => p.username == u)) := by
  induction l with
  | nil => by_cases h : v = u <;> simp [h]
  | cons p l ih =>
    by_cases hp : p.username = v
    · have hd : (decide (p.username ≠ v)) = false := by simp [hp]
      rw [List.filter_cons, hd]
      simp only [Bool.false_eq_true, if_false]
      rw [ih]
      by_cases hu : v = u
      · simp [hu]
      · have hpu : (p.username == u) = false := by
          refine beq_eq_false_iff_ne.mpr ?_
          rw [hp]
          exact hu
        simp [hu, List.any_cons, hpu]
    · have hd : (decide (p.username ≠ v)) = true := by simp [hp]
      rw [List.filter_cons, hd]
      simp only [if_true, List.any_cons]
      rw [ih]
      by_cases hu : v = u
      · have hpu : (p.username == u) = false := by
          refine beq_eq_false_iff_ne.mpr ?_
          rw [← hu]
          exact hp
        simp [hu, hpu]
      · simp [hu]

theorem any_applyRoomOp_join (stor : MemStorage) (r v u : Option String) :
    (((applyRoomOp stor r (RoomOp.join v)).getParticipants r).any
        (fun p => p.username == u)) =
      (if v = u then true
       else (stor.getParticipants r).any (fun p => p.username == u)) := by
  have h : (applyRoomOp stor r (RoomOp.join v)).getParticipants r =
      stor.participants r ++ [⟨stor.participantId, r, v, stor.now⟩] := by
    simp [applyRoomOp, MemStorage.addParticipant, MemStorage.getParticipants, updFn]
  rw [h, List.any_append]
  by_cases hu : v = u
  · simp [hu]
  · have hvu : (v == u) = false := beq_eq_false_iff_ne.mpr hu
    simp [hu, hvu, MemStorage.getParticipants]

theorem any_applyRoomOp_leave (stor : MemStorage) (r v u : Option String) :
    (((applyRoomOp stor r (RoomOp.leave v)).getParticipants r).any
        (fun p => p.username == u)) =
      (if v = u then false
       else (stor.getParticipants r).any (fun p => p.username == u)) := by
  have h : (applyRoomOp stor r (RoomOp.leave v)).getParticipants r =
      (stor.participants r).filter (fun p => p.username ≠ v) := by
    simp [applyRoomOp, MemStorage.removeParticipant, MemStorage.getParticipants, updFn]
  rw [h, any_filter_username]
  rfl

theorem any_applyRoomOps (ops : List RoomOp) (stor : MemStorage) (r u : Option String) :
    (((applyRoomOps stor r ops).getParticipants r).any (fun p => p.username == u)) =
      activeAfter ((stor.getParticipants r).any (fun p => p.username == u)) u ops := by
  induction ops generalizing stor with
  | nil => rfl
  | cons op ops ih =>
    have hstep : applyRoomOps stor r (op :: ops) =
        applyRoomOps (applyRoomOp stor r op) r ops := rfl
    cases op with
    | join v =>
      rw [hstep, ih, activeAfter, ← any_applyRoomOp_join stor r v u]
    | leave v =>
      rw [hstep, ih, activeAfter, ← any_applyRoomOp_leave stor r v u]

/-- C5: starting from a room with no participants, after any sequence of
join and leave operations on room r the set of usernames visible via
getParticipants is exactly the set of usernames whose last membership
operation was a join (joined and not subsequently left); and leaving
twice yields the same participant list as leaving once. -/
theorem participants_track_joins_minus_leaves (stor : MemStorage)
    (r u : Option String) (ops : List RoomOp)
    (hempty : stor.getParticipants r = []) :
    ((∃ p ∈ (applyRoomOps stor r ops).getParticipants r, p.username = u) ↔
      activeAfter false u ops = true) ∧
    ((applyRoomOps stor r (ops ++ [RoomOp.leave u, RoomOp.leave u])).getParticipants r
      = (applyRoomOps stor r (ops ++ [RoomOp.leave u])).getParticipants r) := by
  constructor
  · have h := any_applyRoomOps ops stor r u
    rw [hempty] at h
    simp only [List.any_nil] at h
    rw [← h, List.any_eq_true]
    constructor
    · rintro ⟨p, hp, hpu⟩
      exact ⟨p, hp, beq_iff_eq.mpr hpu⟩
    · rintro ⟨p, hp, hpu⟩
      exact ⟨p, hp, beq_iff_eq.mp hpu⟩
  · have h1 : applyRoomOps stor r (ops ++ [RoomOp.leave u, RoomOp.leave u]) =
        applyRoomOp (applyRoomOp (applyRoomOps stor r ops) r (RoomOp.leave u)) r
          (RoomOp.leave u) := by
      rw [applyRoomOps, List.foldl_append]
      rfl
    have h2 : applyRoomOps stor r (ops ++ [RoomOp.leave u]) =
        applyRoomOp (applyRoomOps stor r ops) r (RoomOp.leave u) := by
      rw [applyRoomOps, List.foldl_append]
      rfl
    rw [h1, h2]
    simp [applyRoomOp, MemStorage.removeParticipant, MemStorage.getParticipants,
      updFn, List.filter_filter]

/-- C5 witness: alice and bob join, bob leaves (twice): bob is no longer
in the participant set, alice is, and the double leave equals the single
leave. -/
theorem participants_track_joins_minus_leaves_witness :
    (¬ ∃ p ∈ (applyRoomOps emptyStorage (some "r1")
          [RoomOp.join (some "alice"), RoomOp.join (some "bob"),
           RoomOp.leave (some "bob")]).getParticipants (some "r1"),
        p.username = some "bob") ∧
    ((∃ p ∈ (applyRoomOps emptyStorage (some "r1")
          [RoomOp.join (some "alice"), RoomOp.join (some "bob"),
           RoomOp.leave (some "bob")]).getParticipants (some "r1"),
        p.username = some "alice") ↔ True) ∧
    ((applyRoomOps emptyStorage (some "r1")
        ([RoomOp.join (some "alice"), RoomOp.join (some "bob")] ++
          [RoomOp.leave (some "bob"), RoomOp.leave (some "bob")])).getParticipants
        (some "r1")
      = (applyRoomOps emptyStorage (some "r1")
          ([RoomOp.join (some "alice"), RoomOp.join (some "bob")] ++
            [RoomOp.leave (some "bob")])).getParticipants (some "r1")) := by
  have ha := participants_track_joins_minus_leaves emptyStorage (some "r1")
    (some "alice") [RoomOp.join (some "alice"), RoomOp.join (some "bob"),
      RoomOp.leave (some "bob")] rfl
  have hb := participants_track_joins_minus_leaves emptyStorage (some "r1")
    (some "bob") [RoomOp.join (some "alice"), RoomOp.join (some "bob"),
      RoomOp.leave (some "bob")] rfl
  have hc := participants_track_joins_minus_leaves emptyStorage (some "r1")
    (some "bob") [RoomOp.join (some "alice"), RoomOp.join (some "bob")] rfl
  refine ⟨?_, ?_, hc.2⟩
  · intro hex
    have := hb.1.mp hex
    simp [activeAfter] at this
  · rw [ha.1]
    simp [activeAfter]

/-! ## Unfolding the successful join_room path -/

theorem handleJoin_found (st : ServerState) (cid ws : String) (rs : String → Bool)
    (p : Payload) (room : Room) (hroom : st.storage.getRoom p.roomId = some room) :
    handleJoin st cid ws rs (some p) =
      ({ storage := ((st.storage.addParticipant p.roomId p.username).1.addMessage
            p.roomId (some "System") (some (jstr p.username ++ " joined the room"))
            "system").1,
         clients := mapSet st.clients cid ⟨ws, p.roomId, p.username⟩ },
       (ws, ServerEvent.videoState
          (((st.storage.addParticipant p.roomId p.username).1.addMessage p.roomId
              (some "System") (some (jstr p.username ++ " joined the room"))
              "system").1.getPlaybackState p.roomId)) ::
         (broadcastToRoom (mapSet st.clients cid ⟨ws, p.roomId, p.username⟩) rs
            p.roomId
            (ServerEvent.chatMessage
              (((st.storage.addParticipant p.roomId p.username).1.addMessage p.roomId
                  (some "System") (some (jstr p.username ++ " joined the room"))
                  "system").2)) none ++
          (broadcastToRoom (mapSet st.clients cid ⟨ws, p.roomId, p.username⟩) rs
             p.roomId (ServerEvent.newPeer p.peerId p.username) (some ws) ++
           [(ws, ServerEvent.joinRoomSuccess room
              (((st.storage.addParticipant p.roomId p.username).1.addMessage p.roomId
                  (some "System") (some (jstr p.username ++ " joined the room"))
                  "system").1.getParticipants p.roomId)
              (((st.storage.addParticipant p.roomId p.username).1.addMessage p.roomId
                  (some "System") (some (jstr p.username ++ " joined the room"))
                  "system").1.getMessages p.roomId))]))) := by
  simp only [handleJoin]
  rw [hroom]

/-! ## Room creation seeds host membership; host join duplicates it (claim C10) -/

/-- C10: POST /api/rooms itself inserts a Participant row for the host
username and appends the creation system Message, before any join_room
is processed; when the host subsequently performs join_room with the
same username, getParticipants for the room holds two rows carrying the
username of the host. -/
theorem create_room_then_join_duplicates_host (stor : MemStorage) (cl : ClientMap)
    (gid : String) (u v : String) (cid ws : String) (rs : String → Bool)
    (pid : Option String) (hu : u ≠ "") (hv : v ≠ "") :
    ((createRoomRoute stor gid (some u) (some v)).2 = CreateRoomResult.created gid) ∧
    ((createRoomRoute stor gid (some u) (some v)).1.getParticipants (some gid)
      = [⟨stor.participantId, some gid, some u, stor.now + 1⟩]) ∧
    ((createRoomRoute stor gid (some u) (some v)).1.getMessages (some gid)
      = [⟨stor.messageId, some gid, some "System", some (u ++ " created the room"),
          "system", stor.now + 2⟩]) ∧
    ((handleFrame ⟨(createRoomRoute stor gid (some u) (some v)).1, cl⟩ cid ws rs
        (joinFrame (some gid) (some u) pid)).1.storage.getParticipants (some gid)
      = [⟨stor.participantId, some gid, some u, stor.now + 1⟩,
         ⟨stor.participantId + 1, some gid, some u, stor.now + 3⟩]) := by
  have htr : (truthy (some u) && truthy (some v)) = true := by
    simp [truthy, hu, hv]
  have hcreate : createRoomRoute stor gid (some u) (some v) =
      ((((stor.createRoom gid (some v) (some u)).1.addParticipant (some gid)
          (some u)).1.addMessage (some gid) (some "System")
          (some (u ++ " created the room")) "system").1,
       CreateRoomResult.created gid) := by
    rw [createRoomRoute, htr]
    simp [MemStorage.createRoom, jstr]
  rw [hcreate]
  refine ⟨rfl, ?_, ?_, ?_⟩
  · simp [MemStorage.createRoom, MemStorage.addParticipant, MemStorage.addMessage,
      MemStorage.getParticipants, updFn]
  · simp [MemStorage.createRoom, MemStorage.addParticipant, MemStorage.addMessage,
      MemStorage.getMessages, updFn]
  · rw [joinFrame, handleFrame_join]
    have hroom : (ServerState.mk (((stor.createRoom gid (some v) (some u)).1.addParticipant
        (some gid) (some u)).1.addMessage (some gid) (some "System")
        (some (u ++ " created the room")) "system").1 cl).storage.getRoom (some gid)
        = some ⟨gid, some v, some u, stor.now⟩ := by
      simp [MemStorage.createRoom, MemStorage.addParticipant, MemStorage.addMessage,
        MemStorage.getRoom, updFn]
    rw [handleJoin_found _ _ _ _ _ _ hroom]
    simp [MemStorage.createRoom, MemStorage.addParticipant, MemStorage.addMessage,
      MemStorage.getParticipants, updFn]

/-- C10 witness: creating room r1 as alice and then joining as alice
yields two participant rows for alice. -/
theorem create_room_then_join_duplicates_host_witness :
    ((createRoomRoute emptyStorage "r1" (some "alice") (some "v1")).2
      = CreateRoomResult.created "r1") ∧
    ((createRoomRoute emptyStorage "r1" (some "alice") (some "v1")).1.getParticipants
        (some "r1")
      = [⟨1, some "r1", some "alice", 1⟩]) ∧
    ((createRoomRoute emptyStorage "r1" (some "alice") (some "v1")).1.getMessages
        (some "r1")
      = [⟨1, some "r1", some "System", some "alice created the room", "system", 2⟩]) ∧
    ((handleFrame ⟨(createRoomRoute emptyStorage "r1" (some "alice") (some "v1")).1,
        []⟩ "c1" "w1" (fun _ => true)
        (joinFrame (some "r1") (some "alice") (some "p1"))).1.storage.getParticipants
        (some "r1")
      = [⟨1, some "r1", some "alice", 1⟩, ⟨2, some "r1", some "alice", 3⟩]) :=
  create_room_then_join_duplicates_host emptyStorage [] "r1" "alice" "v1" "c1" "w1"
    (fun _ => true) (some "p1") (by decide) (by decide)

/-! ## Ordering of join_room side effects (claim C3) -/

theorem broadcastToRoom_fst_ne {cl : ClientMap} {rs : String → Bool}
    {r : Option String} {msg : ServerEvent} {x : String} {s : Send}
    (h : s ∈ broadcastToRoom cl rs r msg (some x)) : s.1 ≠ x := by
  cases s with
  | mk w e =>
    obtain ⟨-, c, q, -, -, hex, -, hw⟩ := mem_broadcastToRoom.mp h
    intro hwx
    apply hex
    rw [hw]
    exact congrArg some (show w = x from hwx).symm

/-- C3: on a successful join_room by a fresh connection, the emitted
sends decompose, in order, into (i) the unicast of the current
PlaybackState to the joiner; (ii) the block l1 of copies of the new
system join Message, which reaches the joiner and every connected member
of the room; (iii) the block l2 of new_peer introductions, which reaches
every connected member except the joiner and never the joiner, and every
recipient of a new_peer also has its copy of the join announcement in
the earlier block l1; and (iv) the final unicast join_room_success to
the joiner carrying the room, the participant list extended by the new
row, and the message history ending with the join announcement. -/
theorem join_side_effect_order (st : ServerState) (cid ws : String)
    (rs : String → Bool) (p : Payload) (room : Room)
    (hroom : st.storage.getRoom p.roomId = some room)
    (hopen : rs ws = true) (hfresh : mapGet st.clients cid = none) :
    ∃ sysMsg l1 l2 parts msgs,
      ((handleFrame st cid ws rs (Frame.valid (some "join_room") (some p))).2 =
        (ws, ServerEvent.videoState (st.storage.getPlaybackState p.roomId)) ::
          (l1 ++ (l2 ++ [(ws, ServerEvent.joinRoomSuccess room parts msgs)]))) ∧
      sysMsg.type = "system" ∧
      sysMsg.content = some (jstr p.username ++ " joined the room") ∧
      sysMsg.username = some "System" ∧
      (∀ s ∈ l1, s.2 = ServerEvent.chatMessage sysMsg) ∧
      (∀ s ∈ l2, s.2 = ServerEvent.newPeer p.peerId p.username) ∧
      ((ws, ServerEvent.chatMessage sysMsg) ∈ l1) ∧
      (∀ c2 q2, (c2, q2) ∈ st.clients → q2.roomId = p.roomId → rs q2.ws = true →
        (q2.ws, ServerEvent.chatMessage sysMsg) ∈ l1) ∧
      (∀ s ∈ l2, s.1 ≠ ws) ∧
      (∀ c2 q2, (c2, q2) ∈ st.clients → q2.roomId = p.roomId → q2.ws ≠ ws →
        rs q2.ws = true → (q2.ws, ServerEvent.newPeer p.peerId p.username) ∈ l2) ∧
      (∀ w a b, (w, ServerEvent.newPeer a b)
          ∈ (handleFrame st cid ws rs (Frame.valid (some "join_room") (some p))).2 →
        (w, ServerEvent.chatMessage sysMsg) ∈ l1) ∧
      (parts = st.storage.getParticipants p.roomId ++
        [⟨st.storage.participantId, p.roomId, p.username, st.storage.now⟩]) ∧
      (msgs = st.storage.getMessages p.roomId ++ [sysMsg]) := by
  have happ : mapSet st.clients cid ⟨ws, p.roomId, p.username⟩ =
      st.clients ++ [(cid, ⟨ws, p.roomId, p.username⟩)] :=
    mapSet_eq_append st.clients cid ⟨ws, p.roomId, p.username⟩ hfresh
  have hout : (handleFrame st cid ws rs (Frame.valid (some "join_room") (some p))).2 =
      (ws, ServerEvent.videoState (st.storage.getPlaybackState p.roomId)) ::
        (broadcastToRoom (mapSet st.clients cid ⟨ws, p.roomId, p.username⟩) rs
            p.roomId
            (ServerEvent.chatMessage
              ⟨st.storage.messageId, p.roomId, some "System",
                some (jstr p.username ++ " joined the room"), "system",
                st.storage.now + 1⟩) none ++
          (broadcastToRoom (mapSet st.clients cid ⟨ws, p.roomId, p.username⟩) rs
              p.roomId (ServerEvent.newPeer p.peerId p.username) (some ws) ++
            [(ws, ServerEvent.joinRoomSuccess room
              (((st.storage.addParticipant p.roomId p.username).1.addMessage p.roomId
                  (some "System") (some (jstr p.username ++ " joined the room"))
                  "system").1.getParticipants p.roomId)
              (((st.storage.addParticipant p.roomId p.username).1.addMessage p.roomId
                  (some "System") (some (jstr p.username ++ " joined the room"))
                  "system").1.getMessages p.roomId))])) := by
    rw [handleFrame_join, handleJoin_found st cid ws rs p room hroom]
    rfl
  refine ⟨⟨st.storage.messageId, p.roomId, some "System",
      some (jstr p.username ++ " joined the room"), "system", st.storage.now + 1⟩,
    broadcastToRoom (mapSet st.clients cid ⟨ws, p.roomId, p.username⟩) rs p.roomId
      (ServerEvent.chatMessage
        ⟨st.storage.messageId, p.roomId, some "System",
          some (jstr p.username ++ " joined the room"), "system",
          st.storage.now + 1⟩) none,
    broadcastToRoom (mapSet st.clients cid ⟨ws, p.roomId, p.username⟩) rs p.roomId
      (ServerEvent.newPeer p.peerId p.username) (some ws),
    ((st.storage.addParticipant p.roomId p.username).1.addMessage p.roomId
        (some "System") (some (jstr p.username ++ " joined the room"))
        "system").1.getParticipants p.roomId,
    ((st.storage.addParticipant p.roomId p.username).1.addMessage p.roomId
        (some "System") (some (jstr p.username ++ " joined the room"))
        "system").1.getMessages p.roomId,
    hout, rfl, rfl, rfl, ?_, ?_, ?_, ?_, ?_, ?_, ?_, ?_, ?_⟩
  · intro s hs
    exact broadcastToRoom_event hs
  · intro s hs
    exact broadcastToRoom_event hs
  · refine @mem_broadcastToRoom_of_entry
      (mapSet st.clients cid ⟨ws, p.roomId, p.username⟩) rs p.roomId _ none cid
      ⟨ws, p.roomId, p.username⟩ ?_ rfl (by intro h; cases h) hopen
    rw [happ]
    exact List.mem_append_right _ (List.mem_singleton.mpr rfl)
  · intro c2 q2 hm hr hrs
    refine @mem_broadcastToRoom_of_entry _ _ _ _ _ c2 q2 ?_ hr
      (by intro h; cases h) hrs
    rw [happ]
    exact List.mem_append_left _ hm
  · intro s hs
    exact broadcastToRoom_fst_ne hs
  · intro c2 q2 hm hr hws hrs
    refine @mem_broadcastToRoom_of_entry _ _ _ _ _ c2 q2 ?_ hr ?_ hrs
    · rw [happ]
      exact List.mem_append_left _ hm
    · intro h
      exact hws (Option.some.inj h).symm
  · intro w a b hmem
    rw [hout] at hmem
    rcases List.mem_cons.mp hmem with hhead | htail
    · cases hhead
    · rcases List.mem_append.mp htail with h1 | h23
      · have := broadcastToRoom_event h1
        cases this
      · rcases List.mem_append.mp h23 with h2 | h3
        · obtain ⟨-, c3, q3, hm3, hr3, hex3, hrs3, hw3⟩ := mem_broadcastToRoom.mp h2
          rw [happ] at hm3
          rcases List.mem_append.mp hm3 with hold | hnew
          · rw [← hw3]
            refine @mem_broadcastToRoom_of_entry _ _ _ _ _ c3 q3 ?_ hr3
              (by intro h; cases h) hrs3
            rw [happ]
            exact List.mem_append_left _ hold
          · exfalso
            have hpair : (c3, q3) = (cid, (⟨ws, p.roomId, p.username⟩ : ClientEntry)) :=
              List.mem_singleton.mp hnew
            have hq3 : q3 = ⟨ws, p.roomId, p.username⟩ := congrArg Prod.snd hpair
            apply hex3
            rw [hq3]
        · have := List.mem_singleton.mp h3
          cases this
  · simp [MemStorage.addParticipant, MemStorage.addMessage,
      MemStorage.getParticipants, updFn]
  · simp [MemStorage.addParticipant, MemStorage.addMessage,
      MemStorage.getMessages, updFn]

/-- C3 witness: carol joins room r1 (members alice and bob) on a fresh
connection; the side-effect decomposition holds at this input. -/
theorem join_side_effect_order_witness :
    ∃ sysMsg l1 l2 parts msgs,
      ((handleFrame serverAB "cC" "wsC" (fun _ => true)
          (Frame.valid (some "join_room")
            (some ⟨some "r1", some "carol", none, some "pC", none, none⟩))).2 =
        ("wsC", ServerEvent.videoState
            (serverAB.storage.getPlaybackState (some "r1"))) ::
          (l1 ++ (l2 ++ [("wsC", ServerEvent.joinRoomSuccess
            ⟨"r1", some "v1", some "alice", 0⟩ parts msgs)]))) ∧
      sysMsg.type = "system" ∧
      sysMsg.content = some (jstr (some "carol") ++ " joined the room") ∧
      sysMsg.username = some "System" ∧
      (∀ s ∈ l1, s.2 = ServerEvent.chatMessage sysMsg) ∧
      (∀ s ∈ l2, s.2 = ServerEvent.newPeer (some "pC") (some "carol")) ∧
      (("wsC", ServerEvent.chatMessage sysMsg) ∈ l1) ∧
      (∀ c2 q2, (c2, q2) ∈ serverAB.clients → q2.roomId = some "r1" →
        (fun (_ : String) => true) q2.ws = true →
        (q2.ws, ServerEvent.chatMessage sysMsg) ∈ l1) ∧
      (∀ s ∈ l2, s.1 ≠ "wsC") ∧
      (∀ c2 q2, (c2, q2) ∈ serverAB.clients → q2.roomId = some "r1" →
        q2.ws ≠ "wsC" → (fun (_ : String) => true) q2.ws = true →
        (q2.ws, ServerEvent.newPeer (some "pC") (some "carol")) ∈ l2) ∧
      (∀ w a b, (w, ServerEvent.newPeer a b)
          ∈ (handleFrame serverAB "cC" "wsC" (fun _ => true)
              (Frame.valid (some "join_room")
                (some ⟨some "r1", some "carol", none, some "pC", none, none⟩))).2 →
        (w, ServerEvent.chatMessage sysMsg) ∈ l1) ∧
      (parts = serverAB.storage.getParticipants (some "r1") ++
        [⟨1, some "r1", some "carol", 1⟩]) ∧
      (msgs = serverAB.storage.getMessages (some "r1") ++ [sysMsg]) :=
  join_side_effect_order serverAB "cC" "wsC" (fun _ => true)
    ⟨some "r1", some "carol", none, some "pC", none, none⟩
    ⟨"r1", some "v1", some "alice", 0⟩ (by decide) rfl (by decide)

/-! ## The message log is append-only and timestamp-ascending (claim C6) -/

/-- Unfolding of the join_room path when the room does not resolve. -/
theorem handleJoin_notFound (st : ServerState) (cid ws : String) (rs : String → Bool)
    (p : Payload) (hroom : st.storage.getRoom p.roomId = none) :
    handleJoin st cid ws rs (some p) =
      ({ st with clients := mapSet st.clients cid ⟨ws, p.roomId, p.username⟩ },
       [(ws, ServerEvent.error "Room not found")]) := by
  simp only [handleJoin]
  rw [hroom]

/-- Unfolding of the leave path when the clients Map holds the entry. -/
theorem leaveCleanup_found (st : ServerState) (cid : String) (rs : String → Bool)
    (c : ClientEntry) (hc : mapGet st.clients cid = some c) :
    leaveCleanup st cid rs =
      ({ storage := ((st.storage.removeParticipant c.roomId c.username).addMessage
            c.roomId (some "System") (some (jstr c.username ++ " left the room"))
            "system").1,
         clients := mapDelete st.clients cid },
       broadcastToRoom st.clients rs c.roomId
          (ServerEvent.chatMessage
            ((st.storage.removeParticipant c.roomId c.username).addMessage c.roomId
                (some "System") (some (jstr c.username ++ " left the room"))
                "system").2) none ++
        broadcastToRoom st.clients rs c.roomId (ServerEvent.peerLeft c.username)
          none) := by
  simp only [leaveCleanup]
  rw [hc]

/-- One externally triggered coordinator operation. -/
inductive ServerOp where
  | frame (clientId ws : String) (f : Frame)
  | closeConn (clientId : String)
  | createRoom (genId : String) (username videoUrl : Option String)

/-- Run one coordinator operation, keeping only the state. -/
def applyServerOp (st : ServerState) (rs : String → Bool) : ServerOp → ServerState
  | ServerOp.frame cid ws f => (handleFrame st cid ws rs f).1
  | ServerOp.closeConn cid => (handleClose st cid rs).1
  | ServerOp.createRoom g u v => ⟨(createRoomRoute st.storage g u v).1, st.clients⟩

/-- Every room log is ordered by timestamp ascending. -/
def msgsSorted (stor : MemStorage) : Prop :=
  ∀ r, List.Chain' (fun a b => a.timestamp ≤ b.timestamp) (stor.getMessages r)

/-- Every stored timestamp is in the past of the clock. -/
def msgsStamped (stor : MemStorage) : Prop :=
  ∀ r, ∀ m ∈ stor.getMessages r, m.timestamp < stor.now

/-- The log invariant of claim C6. -/
def msgInv (stor : MemStorage) : Prop := msgsSorted stor ∧ msgsStamped stor

/-- One step is append-only: per room, the log is unchanged or gains one
message at the end whose timestamp is no earlier than all existing ones
(hence no message is ever mutated or deleted). -/
def appendOnlyStep (s s2 : MemStorage) : Prop :=
  ∀ r, s2.getMessages r = s.getMessages r ∨
    ∃ m, s2.getMessages r = s.getMessages r ++ [m] ∧
      ∀ m2 ∈ s.getMessages r, m2.timestamp ≤ m.timestamp

/-- Room creation uses a freshly generated nanoid: its key holds no
messages yet.  All other operations need nothing. -/
def freshFor (stor : MemStorage) : ServerOp → Prop
  | ServerOp.createRoom g _ _ => stor.getMessages (some g) = []
  | _ => True

theorem appendOnlyStep_of_eq {s s2 : MemStorage} (hm : s2.messages = s.messages) :
    appendOnlyStep s s2 := by
  intro r
  left
  rw [MemStorage.getMessages, MemStorage.getMessages, hm]

theorem appendOnlyStep_congr_left {s s1 s2 : MemStorage}
    (h : appendOnlyStep s1 s2) (hm : s1.messages = s.messages) :
    appendOnlyStep s s2 := by
  intro r
  have hr := h r
  rw [MemStorage.getMessages, MemStorage.getMessages, hm] at hr
  exact hr

theorem msgInv_mono {s s2 : MemStorage} (hinv : msgInv s)
    (hm : s2.messages = s.messages) (hn : s.now ≤ s2.now) : msgInv s2 := by
  refine ⟨fun r => ?_, fun r m hmem => ?_⟩
  · rw [MemStorage.getMessages, hm]
    exact hinv.1 r
  · rw [MemStorage.getMessages, hm] at hmem
    exact lt_of_lt_of_le (hinv.2 r m hmem) hn

theorem addMessage_appendOnly {stor : MemStorage} (r u c : Option String)
    (ty : String) (hst : msgsStamped stor) :
    appendOnlyStep stor (stor.addMessage r u c ty).1 := by
  intro r2
  by_cases h : r2 = r
  · subst h
    right
    refine ⟨⟨stor.messageId, r2, u, c, ty, stor.now⟩, ?_, ?_⟩
    · simp [MemStorage.addMessage, MemStorage.getMessages, updFn]
    · intro m2 hm2
      exact le_of_lt (hst r2 m2 hm2)
  · left
    simp [MemStorage.addMessage, MemStorage.getMessages, updFn, h]

theorem addMessage_msgInv {stor : MemStorage} (r u c : Option String)
    (ty : String) (hinv : msgInv stor) : msgInv (stor.addMessage r u c ty).1 := by
  refine ⟨fun r2 => ?_, fun r2 m hmem => ?_⟩
  · by_cases h : r2 = r
    · subst h
      have hmsgs : (stor.addMessage r2 u c ty).1.getMessages r2 =
          stor.getMessages r2 ++ [⟨stor.messageId, r2, u, c, ty, stor.now⟩] := by
        simp [MemStorage.addMessage, MemStorage.getMessages, updFn]
      rw [hmsgs, List.chain'_append]
      refine ⟨hinv.1 r2, List.chain'_singleton _, ?_⟩
      intro x hx y hy
      have hxmem : x ∈ stor.getMessages r2 := by
        obtain ⟨hne, hxl⟩ := List.mem_getLast?_eq_getLast hx
        rw [hxl]
        exact List.getLast_mem hne
      have hy' : y = ⟨stor.messageId, r2, u, c, ty, stor.now⟩ := by
        have := hy
        simp at this
        exact this.symm
      rw [hy']
      exact le_of_lt (hinv.2 r2 x hxmem)
    · have hmsgs : (stor.addMessage r u c ty).1.getMessages r2 =
          stor.getMessages r2 := by
        simp [MemStorage.addMessage, MemStorage.getMessages, updFn, h]
      rw [hmsgs]
      exact hinv.1 r2
  · by_cases h : r2 = r
    · subst h
      have hmsgs : (stor.addMessage r2 u c ty).1.getMessages r2 =
          stor.getMessages r2 ++ [⟨stor.messageId, r2, u, c, ty, stor.now⟩] := by
        simp [MemStorage.addMessage, MemStorage.getMessages, updFn]
      rw [hmsgs] at hmem
      have hnow : (stor.addMessage r2 u c ty).1.now = stor.now + 1 := rfl
      rw [hnow]
      rcases List.mem_append.mp hmem with hold | hnew
      · exact lt_trans (hinv.2 r2 m hold) (Nat.lt_succ_self _)
      · rw [List.mem_singleton.mp hnew]
        exact Nat.lt_succ_self _
    · have hmsgs : (stor.addMessage r u c ty).1.getMessages r2 =
          stor.getMessages r2 := by
        simp [MemStorage.addMessage, MemStorage.getMessages, updFn, h]
      rw [hmsgs] at hmem
      exact lt_trans (hinv.2 r2 m hmem) (Nat.lt_succ_self _)

theorem join_step (st : ServerState) (cid ws : String) (rs : String → Bool)
    (pOpt : Option Payload) (hinv : msgInv st.storage) :
    appendOnlyStep st.storage (handleJoin st cid ws rs pOpt).1.storage ∧
    msgInv (handleJoin st cid ws rs pOpt).1.storage := by
  cases pOpt with
  | none => exact ⟨appendOnlyStep_of_eq rfl, hinv⟩
  | some p =>
    cases hr : st.storage.getRoom p.roomId with
    | none =>
      rw [handleJoin_notFound st cid ws rs p hr]
      exact ⟨appendOnlyStep_of_eq rfl, hinv⟩
    | some room =>
      rw [handleJoin_found st cid ws rs p room hr]
      have hinv1 : msgInv (st.storage.addParticipant p.roomId p.username).1 :=
        msgInv_mono hinv rfl (Nat.le_succ _)
      exact ⟨appendOnlyStep_congr_left (addMessage_appendOnly _ _ _ _ hinv1.2) rfl,
        addMessage_msgInv _ _ _ _ hinv1⟩

theorem leave_step (st : ServerState) (cid : String) (rs : String → Bool)
    (hinv : msgInv st.storage) :
    appendOnlyStep st.storage (leaveCleanup st cid rs).1.storage ∧
    msgInv (leaveCleanup st cid rs).1.storage := by
  cases hc : mapGet st.clients cid with
  | none =>
    rw [leaveCleanup_of_absent hc]
    exact ⟨appendOnlyStep_of_eq rfl, hinv⟩
  | some c =>
    rw [leaveCleanup_found st cid rs c hc]
    have hinv1 : msgInv (st.storage.removeParticipant c.roomId c.username) :=
      msgInv_mono hinv rfl (le_refl _)
    exact ⟨appendOnlyStep_congr_left (addMessage_appendOnly _ _ _ _ hinv1.2) rfl,
      addMessage_msgInv _ _ _ _ hinv1⟩

theorem frame_step (st : ServerState) (cid ws : String) (rs : String → Bool)
    (f : Frame) (hinv : msgInv st.storage) :
    appendOnlyStep st.storage (handleFrame st cid ws rs f).1.storage ∧
    msgInv (handleFrame st cid ws rs f).1.storage := by
  cases f with
  | malformed => exact ⟨appendOnlyStep_of_eq rfl, hinv⟩
  | valid t pOpt =>
    by_cases hj : t = some "join_room"
    · subst hj
      rw [handleFrame_join]
      exact join_step st cid ws rs pOpt hinv
    · by_cases hl : t = some "leave_room"
      · subst hl
        rw [handleFrame_leave]
        exact leave_step st cid rs hinv
      · by_cases hc : t = some "chat_message"
        · subst hc
          rw [handleFrame_chat]
          cases pOpt with
          | none => exact ⟨appendOnlyStep_of_eq rfl, hinv⟩
          | some p =>
            exact ⟨addMessage_appendOnly _ _ _ _ hinv.2, addMessage_msgInv _ _ _ _ hinv⟩
        · by_cases hv : t = some "video_state"
          · subst hv
            rw [handleFrame_video]
            cases pOpt with
            | none => exact ⟨appendOnlyStep_of_eq rfl, hinv⟩
            | some p =>
              exact ⟨appendOnlyStep_of_eq rfl, msgInv_mono hinv rfl (Nat.le_succ _)⟩
          · have hf : handleFrame st cid ws rs (Frame.valid t pOpt) = (st, []) := by
              simp [handleFrame, hj, hl, hc, hv]
            rw [hf]
            exact ⟨appendOnlyStep_of_eq rfl, hinv⟩

theorem create_step (stor : MemStorage) (g : String) (u v : Option String)
    (hinv : msgInv stor) (hfresh : stor.getMessages (some g) = []) :
    appendOnlyStep stor (createRoomRoute stor g u v).1 ∧
    msgInv (createRoomRoute stor g u v).1 := by
  by_cases htr : (truthy u && truthy v) = true
  · have hroute : (createRoomRoute stor g u v).1 =
        (((stor.createRoom g v u).1.addParticipant (some g) u).1.addMessage (some g)
          (some "System") (some (jstr u ++ " created the room")) "system").1 := by
      simp [createRoomRoute, htr, MemStorage.createRoom]
    rw [hroute]
    have hg : ((((stor.createRoom g v u).1.addParticipant (some g) u).1.addMessage
        (some g) (some "System") (some (jstr u ++ " created the room"))
        "system").1).getMessages (some g) =
        [⟨stor.messageId, some g, some "System",
          some (jstr u ++ " created the room"), "system", stor.now + 2⟩] := by
      simp [MemStorage.createRoom, MemStorage.addParticipant, MemStorage.addMessage,
        MemStorage.getMessages, updFn]
    have hoff : ∀ r, r ≠ some g →
        ((((stor.createRoom g v u).1.addParticipant (some g) u).1.addMessage (some g)
          (some "System") (some (jstr u ++ " created the room"))
          "system").1).getMessages r = stor.getMessages r := by
      intro r hr
      simp [MemStorage.createRoom, MemStorage.addParticipant, MemStorage.addMessage,
        MemStorage.getMessages, updFn, hr]
    have hnow : ((((stor.createRoom g v u).1.addParticipant (some g) u).1.addMessage
        (some g) (some "System") (some (jstr u ++ " created the room"))
        "system").1).now = stor.now + 3 := rfl
    refine ⟨?_, ?_, ?_⟩
    · intro r
      by_cases hr : r = some g
      · subst hr
        right
        refine ⟨⟨stor.messageId, some g, some "System",
          some (jstr u ++ " created the room"), "system", stor.now + 2⟩, ?_, ?_⟩
        · rw [hg, hfresh]
          rfl
        · rw [hfresh]
          intro m2 hm2
          cases hm2
      · left
        exact hoff r hr
    · intro r
      by_cases hr : r = some g
      · subst hr
        rw [hg]
        exact List.chain'_singleton _
      · rw [hoff r hr]
        exact hinv.1 r
    · intro r m hm
      rw [hnow]
      by_cases hr : r = some g
      · subst hr
        rw [hg] at hm
        rw [List.mem_singleton.mp hm]
        show stor.now + 2 < stor.now + 3
        omega
      · rw [hoff r hr] at hm
        have := hinv.2 r m hm
        omega
  · have hroute : (createRoomRoute stor g u v).1 = stor := by
      simp [createRoomRoute, htr]
    rw [hroute]
    exact ⟨appendOnlyStep_of_eq rfl, hinv⟩

/-- C6: every coordinator operation (any inbound frame, a transport
close, or a room creation with a fresh id) either leaves the Message
log of each room unchanged or appends exactly one Message at its end whose
timestamp is no earlier than every existing one — so no Message is ever
mutated or deleted — and the invariant that getMessages returns the log
in timestamp-ascending order is preserved. -/
theorem message_log_append_only (st : ServerState) (rs : String → Bool)
    (op : ServerOp) (hinv : msgInv st.storage) (hfresh : freshFor st.storage op) :
    appendOnlyStep st.storage (applyServerOp st rs op).storage ∧
    msgInv (applyServerOp st rs op).storage := by
  cases op with
  | frame cid ws f => exact frame_step st cid ws rs f hinv
  | closeConn cid => exact leave_step st cid rs hinv
  | createRoom g u v => exact create_step st.storage g u v hinv hfresh

/-- C6 witness: the append-only step and the preserved invariant at a
concrete input (alice chats in room r1 on the two-member server). -/
theorem message_log_append_only_witness :
    appendOnlyStep serverAB.storage
      (applyServerOp serverAB (fun _ => true)
        (ServerOp.frame "cA" "wsA"
          (chatFrame (some "r1") (some "alice") (some "hi")))).storage ∧
    msgInv (applyServerOp serverAB (fun _ => true)
      (ServerOp.frame "cA" "wsA"
        (chatFrame (some "r1") (some "alice") (some "hi")))).storage := by
  have hempty : ∀ r, serverAB.storage.getMessages r = [] := by
    intro r
    by_cases h : r = some "r1" <;>
      simp [serverAB, storR1, emptyStorage, MemStorage.createRoom,
        MemStorage.getMessages, updFn, h]
  have hinv : msgInv serverAB.storage := by
    constructor
    · intro r
      rw [hempty r]
      exact List.chain'_nil
    · intro r m hm
      rw [hempty r] at hm
      cases hm
  exact message_log_append_only serverAB (fun _ => true)
    (ServerOp.frame "cA" "wsA" (chatFrame (some "r1") (some "alice") (some "hi")))
    hinv trivial
